import Mathlib

/-!
# A verification development for `pyquantregForest.py`

This file gives a shallow embedding of the quantile regression forest code in
`pyquantregForest.py` and proves properties of it.  Real numbers of the source
are modelled as rationals (`ℚ`), numpy arrays as lists, the fitted sklearn
forest (an external collaborator) as an opaque record of leaf-lookup
functions, and Python exceptions as an explicit `Except` error channel.

Attribute naming in the source is inconsistent: `fit` assigns
`_input_sample`, `_output_sample`, `_n_sample`, `_sample_nodes`, while other
methods read `_inputSample`, `_outputSample`, `_numSample`, `_nodesOfSamples`,
`_n_points`, `_oobID`, `_numTree`, `_numJobs`, which no method ever assigns.
The embedding keeps both families of attributes: the never-assigned ones are
`Option`-valued fields that `fit` leaves at `none`, and reading them through
`getAttr` raises `attributeError`, exactly as Python raises `AttributeError`
on a missing instance attribute.
-/

namespace QRF

/-- Python exceptions that the embedded code can raise.  The source defines no
exception classes of its own (in particular there is no `EmptyLeafError`);
these are the built-in exceptions its operations can produce. -/
inductive PyError where
  | attributeError : PyError
  | valueError : PyError
  | typeError : PyError
  | indexError : PyError
  deriving DecidableEq, Repr

/-- The shape-dependent return value of `computeQuantile` (lines 208-213):
a scalar, a 1-d array (`ravel`), or an (n × m) matrix. -/
inductive QuantileResult where
  | scalar : ℚ → QuantileResult
  | vector : List ℚ → QuantileResult
  | matrix : List (List ℚ) → QuantileResult
  deriving DecidableEq, Repr

/-- The `X` argument of `computeQuantile`: a plain Python number, a 1-d
array/list, or a 2-d array of query rows. -/
inductive XArg where
  | scalar : ℚ → XArg
  | vec : List ℚ → XArg
  | mat : List (List ℚ) → XArg
  deriving DecidableEq, Repr

/-- The `alpha` argument of `computeQuantile`: a plain number or a sequence of
probability levels. -/
inductive AlphaArg where
  | scalar : ℚ → AlphaArg
  | vec : List ℚ → AlphaArg
  deriving DecidableEq, Repr

/-- `np.asarray(alpha)` inside `computeQuantile`: a 0-d array (from a plain
number), a 1-d array, or — after the wrapping step `alpha = [alpha]` has been
applied to a list — a 2-d array of shape (1, m), kept here as its single
row. -/
inductive NpAlpha where
  | zerod : ℚ → NpAlpha
  | oned : List ℚ → NpAlpha
  | twod : List ℚ → NpAlpha
  deriving DecidableEq, Repr

/-- `alpha.size` of the numpy array. -/
def NpAlpha.size : NpAlpha → ℕ
  | .zerod _ => 1
  | .oned l => l.length
  | .twod l => l.length

/-- `np.asarray` applied to the alpha argument. -/
def toNpAlpha : AlphaArg → NpAlpha
  | .scalar a => .zerod a
  | .vec l => .oned l

/-- The statement `alpha = [alpha]` (line 120): wrapping a number gives a
one-element 1-d array, wrapping a list gives a 2-d array of shape (1, m). -/
def wrapAlpha : NpAlpha → NpAlpha
  | .zerod a => .oned [a]
  | .oned l => .twod l
  | .twod l => .twod l

/-- Lines 119-122 of the source.  Both guards test `type(X) in [int, float]`
(the first one is evidently meant to test `alpha`), so `alpha` is wrapped in a
list if and only if `X` is a plain number. -/
def pyWrapAlpha (X : XArg) (a : AlphaArg) : NpAlpha :=
  match X with
  | .scalar _ => wrapAlpha (toNpAlpha a)
  | _ => toNpAlpha a

/-- Line 122 of the source: `X = [X]` when `X` is a plain number. -/
def pyWrapX : XArg → XArg
  | .scalar x => .vec [x]
  | a => a

/-- Reading a Python instance attribute: raises `AttributeError` when the
attribute was never assigned. -/
def getAttr {α : Type} (o : Option α) : Except PyError α :=
  match o with
  | some v => .ok v
  | none => .error .attributeError

/-- The trained sklearn ensemble, an external collaborator (spec §6): it
exposes leaf lookup for the whole forest (`self.apply`), per-tree leaf lookup
(`self.estimators_[i].tree_.apply`), the two scipy optimizers (as oracles
taking a start point, the objective and the constraint), and the permutation
drawn by `np.random.shuffle` for column `j` of a matrix. -/
structure Forest where
  n_estimators : ℕ
  applyF : List (List ℚ) → List (List ℤ)
  estimators : List (List ℚ → ℤ)
  cobyla : ℚ → (ℚ → ℚ) → (ℚ → ℚ) → ℚ
  slsqp : ℚ → (ℚ → ℚ) → (ℚ → ℚ) → ℚ → ℚ
  shuffle : ℕ → List (List ℚ) → List (List ℚ)

/-- The state of a `QuantileForest` object after `fit`.  Snake_case fields are
the attributes `fit` assigns; the `Option`-valued fields model the attributes
that other methods read but that no method ever assigns
(`_nodesOfSamples`, `_n_points`, `_outputSample`, `_numSample`,
`_inputSample`, `_oobID`, `_numTree`, `_numJobs`), plus `_yCDF` / `_infYY`,
which only the (unreachable) body of `setPrecisionOfCDF` would assign. -/
structure FitState where
  forest : Forest
  n_sample : ℕ
  input_dim : ℕ
  input_sample : List (List ℚ)
  output_sample : List ℚ
  sample_nodes : List (List ℤ)
  nodesOfSamples : Option (List (List ℤ))
  n_points : Option ℕ
  outputSampleAttr : Option (List ℚ)
  numSampleAttr : Option ℕ
  inputSampleAttr : Option (List (List ℚ))
  oobID : Option (List (List ℕ))
  numTree : Option ℕ
  numJobs : Option ℕ
  yCDF : Option (List ℚ)
  infYY : Option (List (List Bool))

/-- `fit` (lines 54-83): records the sample counts and dimension, stores the
training data, and stores the per-tree leaf assignment of every training
sample under `_sample_nodes` (`self.apply(X)`).  Training inputs are passed
as a list of rows (a 1-d training vector is the rows-of-length-one case, as
in `X.shape[0] == X.size`).  None of the camelCase attributes is assigned. -/
def fit (F : Forest) (X : List (List ℚ)) (y : List ℚ) : FitState :=
  { forest := F
    n_sample := X.length
    input_dim := (X.headD []).length
    input_sample := X
    output_sample := y
    sample_nodes := F.applyF X
    nodesOfSamples := none
    n_points := none
    outputSampleAttr := none
    numSampleAttr := none
    inputSampleAttr := none
    oobID := none
    numTree := none
    numJobs := none
    yCDF := none
    infYY := none }

/-- `check_function` (lines 280-285): the pinball (check) loss
`u * (alpha - 1{u < 0})` with `u = y - yi`. -/
def check_function (y yi alpha : ℚ) : ℚ :=
  (y - yi) * (alpha - (if y - yi < 0 then 1 else 0))

/-- `_optFunc` (lines 215-221), the objective handed to the optimizers:
`check_function(self._output_sample.values[w != 0], yi, alpha).sum()` — the
pinball losses of the training outputs restricted to the samples with
nonzero weight, summed without any weighting. -/
def optFunc (outputs : List ℚ) (yi : ℚ) (w : List ℚ) (alpha : ℚ) : ℚ :=
  ((((outputs.zip w).filter (fun p => decide (p.2 ≠ 0))).map
      (fun p => check_function p.1 yi alpha)).sum)

/-- The objective the spec claims `_optFunc` computes (spec §4.3):
`L(q) = Σ_i w_i · (y_i − q) · (alpha − 1{y_i − q < 0})`, the weighted pinball
loss.  Stated from the spec's words (not from the source) so that it can be
compared with `optFunc`. -/
def weightedPinballSpec (outputs : List ℚ) (yi : ℚ) (w : List ℚ) (alpha : ℚ) : ℚ :=
  (((outputs.zip w).map (fun p => p.2 * check_function p.1 yi alpha)).sum)

/-- `_ieqFunc` (lines 223-228), the inequality constraint handed to the
optimizers: `w[self._output_sample.values <= yi].sum() - alpha`, the weighted
empirical CDF at `yi` minus `alpha`. -/
def ieqFunc (outputs : List ℚ) (yi : ℚ) (w : List ℚ) (alpha : ℚ) : ℚ :=
  ((((outputs.zip w).filter (fun p => decide (p.1 ≤ yi))).map (fun p => p.2)).sum) - alpha

/-- Per-tree columns of the boolean matrix
`tmp = (sample_node == X_nodes[:, k])` (line 158): the `(numSample × numTree)`
indicator of leaf co-membership, held as its list of per-tree columns
(the source's numpy operations on it are all column-wise: `sum(axis=0)`,
a column-broadcast division, `mean(axis=1)`). -/
def treeCols (sampleCols : List (List ℤ)) (qleaf : List ℤ) : List (List Bool) :=
  (sampleCols.zip qleaf).map (fun p => p.1.map (fun v => decide (v = p.2)))

/-- The per-tree columns of `self._sample_nodes.values`, an
`(numSample × numTree)` integer matrix stored row-per-sample. -/
def sampleColsOf (sample_nodes : List (List ℤ)) (T : ℕ) : List (List ℤ) :=
  (List.range T).map (fun t => sample_nodes.map (fun row => row.getD t 0))

/-- `n_samples_nodes = tmp.sum(axis=0)` (line 161) for one tree: the leaf's
occupancy count among the training samples. -/
def colOcc (col : List Bool) : ℕ := col.count true

/-- `weight = tmp.astype(float) / n_samples_nodes` (line 165) for one tree:
the indicator column divided by its occupancy.  (On a zero occupancy the
source's division produces numpy NaNs with a runtime warning — there is no
empty-leaf check; theorems about weights only ever assume positive
occupancy.) -/
def colWeight (col : List Bool) : List ℚ :=
  col.map (fun b => (if b then (1 : ℚ) else 0) / (colOcc col : ℚ))

/-- Elementwise sum of two equally long vectors. -/
def vecAdd (a b : List ℚ) : List ℚ := List.zipWith (· + ·) a b

/-- Sum of a list of length-`n` vectors. -/
def sumVecs (ls : List (List ℚ)) (n : ℕ) : List ℚ :=
  ls.foldr vecAdd (List.replicate n 0)

/-- `weight = weight.mean(axis=1)` (line 170), full-forest mode: the
arithmetic mean over the trees of the per-tree normalized weight columns. -/
def forestWeight (cols : List (List Bool)) (n : ℕ) : List ℚ :=
  (sumVecs (cols.map colWeight) n).map (fun x => x / (cols.length : ℚ))

/-- Dot product of a boolean indicator row with the weight vector
(`self._infYY.dot(weight)`, line 202, one grid row). -/
def boolDot (row : List Bool) (w : List ℚ) : ℚ :=
  (((row.zip w).map (fun p => if p.1 then p.2 else 0)).sum)

/-- `CDF = self._infYY.dot(weight).ravel()` (line 202): the weighted empirical
CDF evaluated over the grid. -/
def weightedCDF (infYY : List (List Bool)) (w : List ℚ) : List ℚ :=
  infYY.map (fun row => boolDot row w)

/-- `self._yCDF.values[CDF >= alphai][0]` (line 203): the first grid value at
which the weighted CDF reaches `alphai`; indexing an empty selection with
`[0]` is an `IndexError`. -/
def invertCDF (infYY : List (List Bool)) (w : List ℚ) (yCDF : List ℚ)
    (alphai : ℚ) : Except PyError ℚ :=
  match ((yCDF.zip (weightedCDF infYY w)).filter (fun p => decide (alphai ≤ p.2))).head? with
  | some p => .ok p.1
  | none => .error .indexError

/-- Insertion of a value into a sorted list (ascending). -/
def insertSorted (x : ℚ) : List ℚ → List ℚ
  | [] => [x]
  | a :: t => if x ≤ a then x :: a :: t else a :: insertSorted x t

/-- Ascending sort of a list of rationals (`Series.sort`, `np.sort`). -/
def sortList (l : List ℚ) : List ℚ := l.foldr insertSorted []

/-- `np.percentile(a, q)` with the default linear interpolation: on the sorted
values, the value at fractional rank `(len - 1) * q / 100`.  An empty input is
an error, as in numpy. -/
def npPercentile (l : List ℚ) (q : ℚ) : Except PyError ℚ :=
  match l with
  | [] => .error .indexError
  | _ =>
    let s := sortList l
    let h : ℚ := ((s.length - 1 : ℕ) : ℚ) * q / 100
    let i : ℕ := (⌊h⌋).toNat
    let lo := s.getD i 0
    let hi := s.getD (min (i + 1) (s.length - 1)) 0
    .ok (lo + (h - (⌊h⌋ : ℚ)) * (hi - lo))

/-- `np.linspace(a, b, n)`: `n` evenly spaced values from `a` to `b`. -/
def linspace (a b : ℚ) (n : ℕ) : List ℚ :=
  if n = 1 then [a]
  else (List.range n).map (fun i => a + (b - a) * (i : ℚ) / ((n - 1 : ℕ) : ℚ))

/-- Smallest element of a list (used for `self._outputSample.min()`). -/
def listMin (l : List ℚ) : ℚ := (sortList l).headD 0

/-- Largest element of a list (used for `self._outputSample.max()`). -/
def listMax (l : List ℚ) : ℚ := (sortList l).getLastD 0

/-- `setPrecisionOfCDF` (lines 233-248).  Its body reads `self._outputSample`
(and later `self._numSample`), attributes that `fit` never assigns — `fit`
assigns `_output_sample` and `_n_sample` — so on any fitted model the very
first read raises `AttributeError`.  When the attributes are present it
builds the grid (`_yCDF`: the sorted outputs for `n_points = 0`, otherwise
`n_points` evenly spaced values between the output minimum and maximum) and
the transposed boolean indicator matrix `_infYY` with entry `(g, i)` equal to
`output i ≤ grid g`. -/
def setPrecisionOfCDF (s : FitState) (n_points : ℕ) : Except PyError FitState := do
  let outS ← getAttr s.outputSampleAttr
  let yCDF := if n_points = 0 then sortList outS
              else linspace (listMin outS) (listMax outS) n_points
  let _ ← getAttr s.numSampleAttr
  let infYY := yCDF.map (fun g => outS.map (fun yv => decide (yv ≤ g)))
  .ok { s with yCDF := some yCDF, infYY := some infYY }

/-- `_check_input` (lines 85-112): reconciles the query array's shape with the
fitted dimension, returning the canonical list of query rows together with
the number of query points, or a `ValueError` when the dimensions cannot be
reconciled.  (A plain number has already been wrapped into a one-element list
by `pyWrapX`.) -/
def check_input (s : FitState) (X : XArg) : Except PyError (List (List ℚ) × ℕ) :=
  match X with
  | .scalar _ => .error .typeError
  | .vec xs =>
    -- numpy 1-d array: `X.shape[1]` raises, so the except branch sets d = 1
    if s.input_dim = 1 then
      .ok (xs.map (fun v => [v]), xs.length)
    else if xs.length = s.input_dim then
      .ok ([xs], 1)
    else .error .valueError
  | .mat rows =>
    if (rows.headD []).length = s.input_dim then
      .ok (rows, rows.length)
    else if rows.length = s.input_dim then
      .ok (rows, 1)
    else .error .valueError

/-- Lines 135-136: `if doSaveCDF or not do_optim: self.setPrecisionOfCDF(self._n_points)`.
The argument expression reads `self._n_points`, which no method ever assigns,
so on fitted models the lookup itself raises `AttributeError` before
`setPrecisionOfCDF` is entered. -/
def cdfStep (s : FitState) (trigger : Bool) : Except PyError FitState :=
  if trigger then do
    let npnts ← getAttr s.n_points
    setPrecisionOfCDF s npnts
  else .ok s

/-- Lines 142-152: leaf lookup for the query points.  Full-forest mode
(`iTree < 0`) applies the whole forest; single-tree mode applies
`self.estimators_[iTree].tree_` and then reads `self._nodesOfSamples`, an
attribute no method ever assigns (`fit` stores `_sample_nodes`).  Returns the
per-query leaf vectors and the per-tree sample leaf columns. -/
def nodeStep (s : FitState) (Xc : List (List ℚ)) (iTree : ℤ) :
    Except PyError (List (List ℤ) × List (List ℤ)) :=
  if iTree < 0 then
    .ok (s.forest.applyF Xc, sampleColsOf s.sample_nodes s.forest.n_estimators)
  else
    if h : iTree.toNat < s.forest.estimators.length then
      let treeAp := s.forest.estimators.get ⟨iTree.toNat, h⟩
      let xnodes := Xc.map treeAp
      match s.nodesOfSamples with
      | none => .error .attributeError
      | some nodes =>
        .ok (xnodes.map (fun v => [v]),
             [nodes.map (fun row => row.getD iTree.toNat 0)])
    else .error .indexError

/-- Sequential effectful map in `Except`, mirroring a Python `for` loop: the
first raised exception aborts the whole loop. -/
def exceptMap {α β : Type} (f : α → Except PyError β) : List α → Except PyError (List β)
  | [] => .ok []
  | a :: t => do
    let b ← f a
    let r ← exceptMap f t
    .ok (b :: r)

/-- The body of the loop over query points (lines 155-206) for query `k`:
build the leaf co-membership indicator and the weight vector, then either run
the optimization strategy per probability level (lines 175-200) or invert the
cached CDF (lines 201-206).  Iterating over a 0-d `alpha` array — which
happens whenever `alpha` was passed as a plain number but `X` was not —
raises `TypeError`, and an unknown `opt_method` raises `ValueError`.  The
scipy optimizers are the oracles stored in the forest. -/
def loopBody (s : FitState) (alphaA : NpAlpha) (do_optim : Bool)
    (opt_method : String) (queryLeaves : List (List ℤ))
    (sampleCols : List (List ℤ)) (iTree : ℤ) (k : ℕ) :
    Except PyError (List ℚ) := do
  let qleaf := queryLeaves.getD k []
  let cols := treeCols sampleCols qleaf
  let weight : List ℚ :=
    if iTree < 0 then forestWeight cols s.n_sample
    else colWeight (cols.headD [])
  if do_optim then
    -- y0 = np.percentile(self._output_sample[weight != 0], alpha * 100.)
    let support := ((s.output_sample.zip weight).filter
        (fun p => decide (p.2 ≠ 0))).map (fun p => p.1)
    match alphaA with
    | .zerod a => do
      let _ ← npPercentile support (a * 100)
      -- for i, alphai in enumerate(alpha): a 0-d array is not iterable
      .error .typeError
    | .oned l => do
      let y0 ← exceptMap (fun ai => npPercentile support (ai * 100)) l
      exceptMap (fun p =>
        if opt_method = "Cobyla" then
          .ok (s.forest.cobyla p.2
            (fun q => optFunc s.output_sample q weight p.1)
            (fun q => ieqFunc s.output_sample q weight p.1))
        else if opt_method = "SQP" then
          .ok (s.forest.slsqp p.2
            (fun q => optFunc s.output_sample q weight p.1)
            (fun q => ieqFunc s.output_sample q weight p.1)
            (|p.2| / 10))
        else .error .valueError) (l.zip y0)
    | .twod _ =>
      -- a (1, m) alpha row reaches scipy as an array argument; modelled as
      -- the broadcasting failure it produces
      .error .valueError
  else
    let yCDF ← getAttr s.yCDF
    let infYY ← getAttr s.infYY
    match alphaA with
    | .zerod _ => .error .typeError
    | .oned l => exceptMap (fun ai => invertCDF infYY weight yCDF ai) l
    | .twod _ => .error .valueError

/-- Lines 208-213: the result is a scalar iff one query point and one level,
a flattened vector iff exactly one of the two counts is one, and the full
matrix otherwise. -/
def shapeResult (n_quantiles n_alphas : ℕ) (rows : List (List ℚ)) : QuantileResult :=
  if n_quantiles = 1 ∧ n_alphas = 1 then .scalar ((rows.headD []).headD 0)
  else if n_quantiles = 1 ∨ n_alphas = 1 then .vector rows.flatten
  else .matrix rows

/-- `computeQuantile` (lines 114-213): wrap plain-number arguments (the
wrapping of `alpha` erroneously tests `X` again), check the query shape,
trigger the CDF-cache build when saving the CDF or inverting, look up the
leaves, loop over query points, and shape the result. -/
def computeQuantile (s : FitState) (X : XArg) (alpha : AlphaArg)
    (do_optim doSaveCDF : Bool) (iTree : ℤ) (opt_method : String) :
    Except PyError QuantileResult := do
  let alphaA := pyWrapAlpha X alpha
  let XA := pyWrapX X
  let (Xc, n_quantiles) ← check_input s XA
  let n_alphas := alphaA.size
  let s ← cdfStep s (doSaveCDF || !do_optim)
  let (queryLeaves, sampleCols) ← nodeStep s Xc iTree
  let rows ← exceptMap
    (loopBody s alphaA do_optim opt_method queryLeaves sampleCols iTree)
    (List.range n_quantiles)
  .ok (shapeResult n_quantiles n_alphas rows)

/-- Arithmetic mean of a list. -/
def listMean (l : List ℚ) : ℚ := l.sum / (l.length : ℚ)

/-- `np.array(errors).mean(axis=0)` (line 277): elementwise mean of a list of
equally long vectors. -/
def meanAxis0 (rows : List (List ℚ)) : List ℚ :=
  (sumVecs rows (rows.headD []).length).map (fun x => x / (rows.length : ℚ))

/-- Reading the quantile result back as a vector aligned with the observed
outputs (numpy broadcasting view of `check_function(Yobs, Yest, alpha)`). -/
def resultAsVec (r : QuantileResult) (n : ℕ) : List ℚ :=
  match r with
  | .scalar q => List.replicate n q
  | .vector v => v
  | .matrix m => m.flatten

/-- `_computeImportanceOfTree` (lines 250-268): on tree `i`'s out-of-bag
samples, the baseline mean pinball loss of single-tree quantile estimates,
and for each input dimension the loss after shuffling that column; returns
`permError - baseError`.  Every attribute it reads (`_oobID`,
`_inputSample`, `_outputSample`) is never assigned, so the first read raises
`AttributeError` on any fitted model. -/
def computeImportanceOfTree (s : FitState) (alpha : ℚ) (i : ℕ) :
    Except PyError (List ℚ) := do
  let oob ← getAttr s.oobID
  let inputS ← getAttr s.inputSampleAttr
  let outputS ← getAttr s.outputSampleAttr
  let oobI := oob.getD i []
  let X_oob := oobI.map (fun j => inputS.getD j [])
  let Yobs := oobI.map (fun j => outputS.getD j 0)
  let YestR ← computeQuantile s (.mat X_oob) (.scalar alpha) true false (i : ℤ) "Cobyla"
  let Yest := resultAsVec YestR Yobs.length
  let baseError := listMean (List.zipWith (fun yo ye => check_function yo ye alpha) Yobs Yest)
  let permError ← exceptMap (fun j => do
      let X_perm := s.forest.shuffle j X_oob
      let YpR ← computeQuantile s (.mat X_perm) (.scalar alpha) true false (i : ℤ) "Cobyla"
      let Yp := resultAsVec YpR Yobs.length
      .ok (listMean (List.zipWith (fun yo ye => check_function yo ye alpha) Yobs Yp)))
    (List.range s.input_dim)
  .ok (permError.map (fun e => e - baseError))

/-- `compute_importance` (lines 270-277): distribute
`_computeImportanceOfTree` over the trees (the parallel pool is semantically
a map) and average the per-tree vectors elementwise.  It first reads
`self._numJobs` (for the pool size) and `self._numTree`, attributes no method
ever assigns. -/
def compute_importance (s : FitState) (alpha : ℚ) : Except PyError (List ℚ) := do
  let _ ← getAttr s.numJobs
  let nTree ← getAttr s.numTree
  let errors ← exceptMap (computeImportanceOfTree s alpha) (List.range nTree)
  .ok (meanAxis0 errors)


/-! ## Helper lemmas on the error channel -/

theorem ok_bind {α β : Type} (a : α) (f : α → Except PyError β) :
    (Except.ok a : Except PyError α) >>= f = f a := rfl

theorem error_bind {α β : Type} (e : PyError) (f : α → Except PyError β) :
    (Except.error e : Except PyError α) >>= f = .error e := rfl

/-- A concrete one-tree forest whose leaf lookups are constant; the optimizer
and shuffle oracles are inert.  Used to instantiate theorems on a fitted
model. -/
def egForest : Forest where
  n_estimators := 1
  applyF := fun rows => rows.map (fun _ => [1])
  estimators := [fun _ => 1]
  cobyla := fun y0 _ _ => y0
  slsqp := fun y0 _ _ _ => y0
  shuffle := fun _ m => m

/-- A concrete one-tree forest that sends training points (≤ 1) to leaf 1 and
the query point 5 to leaf 99, producing a leaf with zero training
occupancy. -/
def emptyLeafForest : Forest where
  n_estimators := 1
  applyF := fun rows => rows.map (fun r => [if r.headD 0 ≤ 1 then 1 else 99])
  estimators := [fun r => if r.headD 0 ≤ 1 then 1 else 99]
  cobyla := fun y0 _ _ => y0
  slsqp := fun y0 _ _ _ => y0
  shuffle := fun _ m => m

/-! ## C6, C7: stale attribute names in the CDF-precision and importance paths -/

/-- C6: the claim says `setPrecisionOfCDF(n_points)` builds the CDF grid (the
sorted outputs for `n_points = 0`, else `n_points` evenly spaced values) and
rebuilds the indicator matrix.  On every model produced by `fit` it instead
raises `AttributeError` at once: it reads `self._outputSample` and
`self._numSample`, while `fit` assigns `_output_sample` and `_n_sample`.  No
grid or indicator matrix is ever built. -/
theorem c6_setPrecision_attribute_error (F : Forest) (X : List (List ℚ))
    (y : List ℚ) (n_points : ℕ) :
    setPrecisionOfCDF (fit F X y) n_points = .error .attributeError := rfl

/-- C7: the claim says the importance computation returns the per-dimension
arithmetic mean over trees of (permuted error − baseline error).  On every
model produced by `fit` it instead raises `AttributeError` at once: it reads
`self._numJobs`, `self._numTree`, `self._oobID`, `self._inputSample`,
`self._outputSample` and (through the single-tree quantile call)
`self._nodesOfSamples`, none of which any method assigns — `fit`'s own
comment leaves obtaining the out-of-bag indices as a TODO. -/
theorem c7_importance_attribute_error (F : Forest) (X : List (List ℚ))
    (y : List ℚ) (alpha : ℚ) :
    compute_importance (fit F X y) alpha = .error .attributeError := rfl

/-! ## C9, C10: attribute errors in computeQuantile -/

/-- Shared core for C3 and C9: on a fitted model, any single-tree
(`0 ≤ iTree`) call of `computeQuantile` whose query passes the shape check
and whose tree index is in range stops with `AttributeError`: the single-tree
branch reads `self._nodesOfSamples`, which no method ever assigns (`fit`
stores the leaf matrix under `_sample_nodes`); when the CDF-cache step is
triggered first, the `self._n_points` read fails the same way. -/
theorem singleTree_attributeError (F : Forest) (Xf : List (List ℚ))
    (y : List ℚ) (Xq : XArg) (alpha : AlphaArg) (do_optim doSaveCDF : Bool)
    (iTree : ℤ) (opt_method : String) (r : List (List ℚ) × ℕ)
    (hi : 0 ≤ iTree) (hlt : iTree.toNat < F.estimators.length)
    (hc : check_input (fit F Xf y) (pyWrapX Xq) = .ok r) :
    computeQuantile (fit F Xf y) Xq alpha do_optim doSaveCDF iTree opt_method =
      .error .attributeError := by
  obtain ⟨Xc, nq⟩ := r
  simp only [computeQuantile, hc, ok_bind]
  cases htr : (doSaveCDF || !do_optim) with
  | true =>
    simp [cdfStep, fit, getAttr, error_bind]
  | false =>
    simp only [cdfStep, Bool.false_eq_true, if_neg, ite_false, ok_bind]
    have hnl : ¬ iTree < 0 := not_lt.mpr hi
    simp only [nodeStep, hnl, ite_false, if_neg]
    have hlt' : iTree.toNat < (fit F Xf y).forest.estimators.length := hlt
    simp only [fit] at hlt' ⊢
    rw [dif_pos hlt']
    simp [getAttr, error_bind]

/-- C9: `fit` stores the training samples' per-tree leaf assignments under
`_sample_nodes`, while the single-tree branch of `computeQuantile` reads
`_nodesOfSamples`, which no method ever assigns; hence for every fitted model
and every in-range tree index `i ≥ 0` (and every query that passes the shape
check), `computeQuantile` with `iTree = i` raises `AttributeError` before
computing any quantile. -/
theorem c9_single_tree_reads_missing_attribute (F : Forest)
    (Xf : List (List ℚ)) (y : List ℚ) (Xq : XArg) (alpha : AlphaArg)
    (do_optim doSaveCDF : Bool) (iTree : ℤ) (opt_method : String)
    (r : List (List ℚ) × ℕ)
    (hi : 0 ≤ iTree) (hlt : iTree.toNat < F.estimators.length)
    (hc : check_input (fit F Xf y) (pyWrapX Xq) = .ok r) :
    computeQuantile (fit F Xf y) Xq alpha do_optim doSaveCDF iTree opt_method =
      .error .attributeError :=
  singleTree_attributeError F Xf y Xq alpha do_optim doSaveCDF iTree
    opt_method r hi hlt hc

/-- Witness for C9 on a concrete fitted model, query and tree index. -/
theorem c9_witness :
    computeQuantile (fit egForest [[0], [1]] [0, 3]) (.vec [0]) (.vec [1/2])
      true false 0 "Cobyla" = .error .attributeError :=
  c9_single_tree_reads_missing_attribute egForest [[0], [1]] [0, 3]
    (.vec [0]) (.vec [1/2]) true false 0 "Cobyla" ([[0]], 1)
    (le_refl 0) (by norm_num [egForest]) rfl

/-- C10: on every model produced by `fit`, calling `computeQuantile` with
`do_optim = False` or `doSaveCDF = True` (and a query passing the shape
check) raises `AttributeError` before returning any quantile: that path reads
`self._n_points`, which no method ever assigns, and the `setPrecisionOfCDF`
call it triggers reads `self._outputSample` and `self._numSample`, while
`fit` assigns `_output_sample` and `_n_sample`. -/
theorem c10_cdf_path_attribute_error (F : Forest) (Xf : List (List ℚ))
    (y : List ℚ) (Xq : XArg) (alpha : AlphaArg) (do_optim doSaveCDF : Bool)
    (iTree : ℤ) (opt_method : String) (r : List (List ℚ) × ℕ)
    (ht : doSaveCDF = true ∨ do_optim = false)
    (hc : check_input (fit F Xf y) (pyWrapX Xq) = .ok r) :
    computeQuantile (fit F Xf y) Xq alpha do_optim doSaveCDF iTree opt_method =
      .error .attributeError := by
  obtain ⟨Xc, nq⟩ := r
  have htr : (doSaveCDF || !do_optim) = true := by
    rcases ht with h | h <;> simp [h]
  simp only [computeQuantile, hc, ok_bind, htr]
  simp [cdfStep, fit, getAttr, error_bind]

/-- Witness for C10 on a concrete fitted model with `do_optim = False`. -/
theorem c10_witness :
    computeQuantile (fit egForest [[0], [1]] [0, 3]) (.vec [0]) (.vec [1/2])
      false false (-1) "Cobyla" = .error .attributeError :=
  c10_cdf_path_attribute_error egForest [[0], [1]] [0, 3]
    (.vec [0]) (.vec [1/2]) false false (-1) "Cobyla" ([[0]], 1)
    (Or.inr rfl) rfl

/-! ## C3: no EmptyLeafError exists; the single-tree path fails earlier -/

/-- Counterexample to C3 as stated.  On a fitted model with a degenerate
single-tree scenario — the query point falls in leaf 99 of tree 0, a leaf
containing no training sample (occupancy 0) — `computeQuantile` in
single-tree mode does not raise an `EmptyLeafError` (the code defines no such
exception, and the weight division has no occupancy check): it raises
`AttributeError`, because the single-tree branch reads the never-assigned
`_nodesOfSamples` before any weight is formed. -/
theorem c3_counterexample :
    (emptyLeafForest.estimators.getD 0 (fun _ => 0)) [5] = 99 ∧
    colOcc ((treeCols (sampleColsOf (fit emptyLeafForest [[0], [1]] [0, 3]).sample_nodes 1)
        [99]).headD []) = 0 ∧
    computeQuantile (fit emptyLeafForest [[0], [1]] [0, 3]) (.vec [5]) (.vec [1/2])
      true false 0 "Cobyla" = .error .attributeError := by
  refine ⟨?_, ?_, ?_⟩
  · norm_num [emptyLeafForest]
  · have hsn : (fit emptyLeafForest [[0], [1]] [0, 3]).sample_nodes = [[1], [1]] := by
      norm_num [fit, emptyLeafForest]
    rw [hsn]; decide
  · exact singleTree_attributeError emptyLeafForest [[0], [1]] [0, 3]
      (.vec [5]) (.vec [1/2]) true false 0 "Cobyla" ([[5]], 1)
      (le_refl 0) (by norm_num [emptyLeafForest]) rfl

/-- C3 (amended): for every fitted model and every single-tree
(`iTree ≥ 0`, in range) quantile computation — in particular one in which the
query's assigned leaf has zero occupancy among the training samples of that
tree — `computeQuantile` raises `AttributeError` (reading the never-assigned
`_nodesOfSamples`) before any weight division; the code defines no
`EmptyLeafError`. -/
theorem c3_zero_occupancy_raises_attribute_error (F : Forest)
    (Xf : List (List ℚ)) (y : List ℚ) (Xq : XArg) (alpha : AlphaArg)
    (do_optim doSaveCDF : Bool) (iTree : ℤ) (opt_method : String)
    (r : List (List ℚ) × ℕ)
    (hi : 0 ≤ iTree) (hlt : iTree.toNat < F.estimators.length)
    (hc : check_input (fit F Xf y) (pyWrapX Xq) = .ok r)
    (hocc : ∀ qrow ∈ r.1,
      colOcc (((fit F Xf y).sample_nodes.map (fun row => row.getD iTree.toNat 0)).map
        (fun v => decide (v = (F.estimators.getD iTree.toNat (fun _ => 0)) qrow))) = 0) :
    computeQuantile (fit F Xf y) Xq alpha do_optim doSaveCDF iTree opt_method =
      .error .attributeError :=
  singleTree_attributeError F Xf y Xq alpha do_optim doSaveCDF iTree
    opt_method r hi hlt hc

/-- Witness for the amended C3 on the concrete degenerate model. -/
theorem c3_witness :
    computeQuantile (fit emptyLeafForest [[0], [1]] [0, 3]) (.vec [5]) (.vec [1/2])
      true false 0 "Cobyla" = .error .attributeError :=
  c3_zero_occupancy_raises_attribute_error emptyLeafForest [[0], [1]] [0, 3]
    (.vec [5]) (.vec [1/2]) true false 0 "Cobyla" ([[5]], 1)
    (le_refl 0) (by norm_num [emptyLeafForest]) rfl
    (by
      intro qrow hq
      simp only [List.mem_singleton] at hq
      subst hq
      have hsn : (fit emptyLeafForest [[0], [1]] [0, 3]).sample_nodes = [[1], [1]] := by
        norm_num [fit, emptyLeafForest]
      have hq99 : (emptyLeafForest.estimators.getD 0 (fun _ => 0)) [5] = 99 := by
        norm_num [emptyLeafForest]
      simp only [hsn, Int.toNat_zero, hq99]
      decide)

/-! ## C5: the scalar-alpha wrapping bug -/

/-- C5: the claim states the shape contract (scalar iff n=1 and m=1, a
sequence of length max(n, m) iff exactly one count is 1, else an n×m
matrix).  It fails for a sequence `X` with `alpha` passed as a plain number:
both wrapping guards test `type(X) in [int, float]` (lines 119-122), so
`alpha` stays a 0-d array and the loop `for i, alphai in enumerate(alpha)`
raises `TypeError: iteration over a 0-d array` instead of returning a
sequence of length `max(n, m)`.  Here n = 2 query points and m = 1 level. -/
theorem c5_scalar_alpha_type_error :
    computeQuantile (fit egForest [[0], [1]] [0, 3]) (.vec [0, 1])
      (.scalar (9/10)) true false (-1) "Cobyla" = .error .typeError := by
  have hr2 : List.range 2 = [0, 1] := rfl
  simp only [computeQuantile, pyWrapAlpha, pyWrapX, toNpAlpha]
  have hc : check_input (fit egForest [[0], [1]] [0, 3]) (.vec [0, 1]) =
      .ok ([[0], [1]], 2) := rfl
  rw [hc, ok_bind]
  have hcdf : cdfStep (fit egForest [[0], [1]] [0, 3]) (false || !true) = 
      .ok (fit egForest [[0], [1]] [0, 3]) := rfl
  rw [hcdf, ok_bind]
  have hnode : nodeStep (fit egForest [[0], [1]] [0, 3]) [[0], [1]] (-1) =
      .ok ([[1], [1]], [[1, 1]]) := rfl
  rw [hnode, ok_bind]
  rw [hr2]
  have hbody : loopBody (fit egForest [[0], [1]] [0, 3]) (.zerod (9/10)) true
      "Cobyla" [[1], [1]] [[1, 1]] (-1) 0 = .error .typeError := by
    simp only [loopBody]
    norm_num [fit, egForest, treeCols, colOcc, colWeight, forestWeight,
      sumVecs, vecAdd, List.count_cons, List.filter, npPercentile, ok_bind,
      error_bind]
  simp [exceptMap, hbody, error_bind]

/-! ## C1: the optimization objective is the unweighted support-restricted loss -/

/-- Counterexample to C1 as stated: the value of the objective `_optFunc` is
not the weighted pinball loss `Σ_i w_i · (y_i − q) · (alpha − 1{y_i − q < 0})`.
With outputs `[0, 4]`, weights `[3/4, 1/4]`, `alpha = 1/2` and candidate
`q = 1` the objective is `2` while the weighted pinball loss is `3/4`. -/
theorem c1_counterexample :
    optFunc [0, 4] 1 [3/4, 1/4] (1/2) = 2 ∧
    weightedPinballSpec [0, 4] 1 [3/4, 1/4] (1/2) = 3/4 ∧
    optFunc [0, 4] 1 [3/4, 1/4] (1/2) ≠
      weightedPinballSpec [0, 4] 1 [3/4, 1/4] (1/2) := by
  refine ⟨?_, ?_, ?_⟩ <;>
    norm_num [optFunc, weightedPinballSpec, check_function, List.filter]

/-- C1 (amended): the objective minimized over scalar `q` equals, for every
weight vector `w`, every `alpha` and every candidate `q`, the sum over the
training samples `i` with `w_i ≠ 0` of `(y_i − q) · (alpha − 1{y_i − q < 0})`
— the unweighted pinball loss restricted to the support of `w`; the weights
do not enter as multiplicative factors. -/
theorem c1_objective_is_support_restricted_sum (outputs w : List ℚ)
    (yi alpha : ℚ) (hlen : outputs.length = w.length) :
    optFunc outputs yi w alpha =
      ∑ i ∈ Finset.range outputs.length,
        (if w.getD i 0 ≠ 0 then check_function (outputs.getD i 0) yi alpha else 0) := by
  induction outputs generalizing w with
  | nil => simp [optFunc]
  | cons o os ih =>
    cases w with
    | nil => simp at hlen
    | cons w0 ws =>
      have hlen' : os.length = ws.length := by simpa using hlen
      have hrec := ih ws hlen'
      simp only [List.length_cons, Finset.sum_range_succ', List.getD_cons_succ,
        List.getD_cons_zero]
      rw [← hrec]
      simp only [optFunc, List.zip_cons_cons, List.filter_cons]
      by_cases h0 : w0 = 0
      · simp [h0]
      · simp [h0, add_comm]

/-- Witness for the amended C1 at a concrete instance. -/
theorem c1_witness :
    optFunc [0, 4] 1 [3/4, 1/4] (1/2) =
      ∑ i ∈ Finset.range ([0, 4] : List ℚ).length,
        (if ([3/4, 1/4] : List ℚ).getD i 0 ≠ 0 then
          check_function (([0, 4] : List ℚ).getD i 0) 1 (1/2) else 0) :=
  c1_objective_is_support_restricted_sum [0, 4] [3/4, 1/4] 1 (1/2) rfl

/-! ## C2: full-forest weights are non-negative and sum to one -/

theorem zipWith_add_sum (a : List ℚ) :
    ∀ b : List ℚ, a.length = b.length →
      (List.zipWith (· + ·) a b).sum = a.sum + b.sum := by
  induction a with
  | nil =>
    intro b h
    have hb : b = [] := List.length_eq_zero.mp h.symm
    subst hb; simp
  | cons x t ih =>
    intro b h
    cases b with
    | nil => simp at h
    | cons y u =>
      have h' : t.length = u.length := by simpa using h
      simp [ih u h']
      ring

theorem zipWith_add_length (a b : List ℚ) :
    (List.zipWith (· + ·) a b).length = min a.length b.length :=
  List.length_zipWith _ _ _

theorem zipWith_add_nonneg (a : List ℚ) :
    ∀ b : List ℚ, (∀ x ∈ a, 0 ≤ x) → (∀ x ∈ b, 0 ≤ x) →
      ∀ x ∈ List.zipWith (· + ·) a b, 0 ≤ x := by
  induction a with
  | nil => intro b _ _ x hx; simp at hx
  | cons p t ih =>
    intro b ha hb x hx
    cases b with
    | nil => simp at hx
    | cons q u =>
      simp only [List.zipWith_cons_cons, List.mem_cons] at hx
      rcases hx with h | h
      · subst h
        exact add_nonneg (ha p (by simp)) (hb q (by simp))
      · exact ih u (fun z hz => ha z (by simp [hz])) (fun z hz => hb z (by simp [hz])) x h

theorem sumVecs_nil (n : ℕ) : sumVecs [] n = List.replicate n 0 := rfl

theorem sumVecs_cons (v : List ℚ) (t : List (List ℚ)) (n : ℕ) :
    sumVecs (v :: t) n = vecAdd v (sumVecs t n) := rfl

theorem sumVecs_length (ls : List (List ℚ)) (n : ℕ)
    (h : ∀ v ∈ ls, v.length = n) : (sumVecs ls n).length = n := by
  induction ls with
  | nil => simp [sumVecs_nil]
  | cons v t ih =>
    have ht : (sumVecs t n).length = n := ih (fun z hz => h z (by simp [hz]))
    rw [sumVecs_cons, vecAdd, zipWith_add_length, ht, h v (by simp)]
    simp

theorem sumVecs_sum (ls : List (List ℚ)) (n : ℕ)
    (h : ∀ v ∈ ls, v.length = n) :
    (sumVecs ls n).sum = (ls.map List.sum).sum := by
  induction ls with
  | nil => simp [sumVecs_nil, List.sum_replicate]
  | cons v t ih =>
    have ht := ih (fun z hz => h z (by simp [hz]))
    have hlt : (sumVecs t n).length = n := sumVecs_length t n (fun z hz => h z (by simp [hz]))
    rw [sumVecs_cons, vecAdd, zipWith_add_sum v _ (by rw [hlt, h v (by simp)]), ht]
    simp

theorem sumVecs_nonneg (ls : List (List ℚ)) (n : ℕ)
    (h : ∀ v ∈ ls, ∀ x ∈ v, 0 ≤ x) :
    ∀ x ∈ sumVecs ls n, 0 ≤ x := by
  induction ls with
  | nil =>
    intro x hx
    rw [sumVecs_nil] at hx
    rw [List.eq_of_mem_replicate hx]
  | cons v t ih =>
    intro x hx
    rw [sumVecs_cons, vecAdd] at hx
    exact zipWith_add_nonneg v _ (h v (by simp))
      (ih (fun z hz => h z (by simp [hz]))) x hx

theorem indicator_div_sum (col : List Bool) (c : ℚ) :
    (col.map (fun b => (if b then (1 : ℚ) else 0) / c)).sum =
      (col.count true : ℚ) / c := by
  induction col with
  | nil => simp
  | cons b t ih =>
    cases b
    · simp [List.count_cons, ih]
    · rw [List.map_cons, List.sum_cons, if_pos rfl, ih, List.count_cons_self]
      push_cast
      rw [div_add_div_same]
      ring

theorem colWeight_sum (col : List Bool) (h : 0 < colOcc col) :
    (colWeight col).sum = 1 := by
  have hc : ((colOcc col : ℚ)) ≠ 0 := by
    exact_mod_cast Nat.pos_iff_ne_zero.mp h
  rw [colWeight, indicator_div_sum]
  exact div_self hc

theorem colWeight_length (col : List Bool) : (colWeight col).length = col.length := by
  simp [colWeight]

theorem colWeight_nonneg (col : List Bool) : ∀ x ∈ colWeight col, 0 ≤ x := by
  intro x hx
  simp only [colWeight, List.mem_map] at hx
  obtain ⟨b, _, rfl⟩ := hx
  apply div_nonneg _ (Nat.cast_nonneg _)
  split <;> norm_num

theorem sum_map_div (l : List ℚ) (c : ℚ) :
    (l.map (fun x => x / c)).sum = l.sum / c := by
  induction l with
  | nil => simp
  | cons x t ih =>
    simp only [List.map_cons, List.sum_cons, ih]
    rw [div_add_div_same]

theorem sum_map_ones (cols : List (List Bool)) (f : List Bool → List ℚ)
    (h : ∀ col ∈ cols, (f col).sum = 1) :
    ((cols.map f).map List.sum).sum = (cols.length : ℚ) := by
  induction cols with
  | nil => simp
  | cons c t ih =>
    simp only [List.map_cons, List.sum_cons, List.length_cons]
    rw [h c (by simp), ih (fun z hz => h z (by simp [hz]))]
    push_cast
    ring

/-- Core of C2: the full-forest weight vector (line 170: the arithmetic mean
over trees of the per-tree occupancy-normalized indicator columns) has
non-negative entries that sum exactly to 1, provided there is at least one
tree, each column covers the `n` training samples and each tree's query leaf
has positive occupancy. -/
theorem forestWeight_sum_one (cols : List (List Bool)) (n : ℕ)
    (hne : cols ≠ [])
    (hlen : ∀ col ∈ cols, col.length = n)
    (hocc : ∀ col ∈ cols, 0 < colOcc col) :
    (forestWeight cols n).sum = 1 ∧ ∀ x ∈ forestWeight cols n, 0 ≤ x := by
  have hwlen : ∀ v ∈ cols.map colWeight, v.length = n := by
    intro v hv
    obtain ⟨c, hc, rfl⟩ := List.mem_map.mp hv
    rw [colWeight_length]
    exact hlen c hc
  constructor
  · rw [forestWeight, sum_map_div]
    rw [sumVecs_sum _ _ hwlen]
    rw [sum_map_ones cols colWeight (fun c hc => colWeight_sum c (hocc c hc))]
    rw [div_self]
    have : cols.length ≠ 0 := by
      intro h
      exact hne (List.length_eq_zero.mp h)
    exact_mod_cast this
  · intro x hx
    simp only [forestWeight, List.mem_map] at hx
    obtain ⟨y, hy, rfl⟩ := hx
    apply div_nonneg _ (Nat.cast_nonneg _)
    refine sumVecs_nonneg _ _ ?_ y hy
    intro v hv
    obtain ⟨c, _, rfl⟩ := List.mem_map.mp hv
    exact colWeight_nonneg c

/-- C2: for every fitted leaf matrix and query leaf vector, the weight vector
computed in full-forest mode — each tree contributes the indicator of leaf
co-membership divided by that leaf's occupancy, and the per-tree normalized
weights are averaged arithmetically across trees (`treeCols`, `colWeight`,
`forestWeight`, lines 155-170) — has all entries non-negative and sums to 1
over the training samples (so in particular within tolerance `1e-9`),
provided there is at least one tree, the columns cover the `n` training
samples and every tree's query leaf has positive occupancy. -/
theorem c2_forest_weight_normalized (sn : List (List ℤ)) (T : ℕ)
    (ql : List ℤ) (n : ℕ)
    (hne : treeCols (sampleColsOf sn T) ql ≠ [])
    (hlen : ∀ col ∈ treeCols (sampleColsOf sn T) ql, col.length = n)
    (hocc : ∀ col ∈ treeCols (sampleColsOf sn T) ql, 0 < colOcc col) :
    (forestWeight (treeCols (sampleColsOf sn T) ql) n).sum = 1 ∧
    (∀ x ∈ forestWeight (treeCols (sampleColsOf sn T) ql) n, 0 ≤ x) ∧
    |(forestWeight (treeCols (sampleColsOf sn T) ql) n).sum - 1| ≤ 1 / 1000000000 := by
  obtain ⟨h1, h2⟩ := forestWeight_sum_one _ n hne hlen hocc
  refine ⟨h1, h2, ?_⟩
  rw [h1]
  norm_num

/-- Witness for C2 on a concrete two-sample, one-tree leaf matrix. -/
theorem c2_witness :
    (forestWeight (treeCols (sampleColsOf [[1], [1]] 1) [1]) 2).sum = 1 ∧
    (∀ x ∈ forestWeight (treeCols (sampleColsOf [[1], [1]] 1) [1]) 2, 0 ≤ x) ∧
    |(forestWeight (treeCols (sampleColsOf [[1], [1]] 1) [1]) 2).sum - 1| ≤ 1 / 1000000000 :=
  c2_forest_weight_normalized [[1], [1]] 1 [1] 2 (by decide)
    (by decide) (by decide)

/-! ## C4: the inversion strategy returns the least qualifying grid value -/

/-- The head of the filtered list is the first qualifying pair; on a list
whose first components are sorted, its first component is the least
first component among all qualifying pairs. -/
theorem firstSat (α : ℚ) (l : List (ℚ × ℚ))
    (hsorted : List.Pairwise (fun p q : ℚ × ℚ => p.1 ≤ q.1) l)
    (hex : ∃ p ∈ l, α ≤ p.2) :
    ∃ v c, (l.filter (fun p => decide (α ≤ p.2))).head? = some (v, c) ∧
      (v, c) ∈ l ∧ α ≤ c ∧ ∀ p ∈ l, α ≤ p.2 → v ≤ p.1 := by
  induction l with
  | nil => simp at hex
  | cons a t ih =>
    by_cases ha : α ≤ a.2
    · refine ⟨a.1, a.2, ?_, by simp, ha, ?_⟩
      · simp [List.filter_cons, ha]
      · intro p hp hpc
        rcases List.mem_cons.mp hp with h | h
        · rw [h]
        · exact (List.pairwise_cons.mp hsorted).1 p h
    · have hex' : ∃ p ∈ t, α ≤ p.2 := by
        rcases hex with ⟨p, hp, hc⟩
        rcases List.mem_cons.mp hp with h | h
        · exact absurd (h ▸ hc) ha
        · exact ⟨p, h, hc⟩
      obtain ⟨v, c, hh, hm, hc, hmin⟩ := ih (List.pairwise_cons.mp hsorted).2 hex'
      refine ⟨v, c, ?_, List.mem_cons_of_mem a hm, hc, ?_⟩
      · simp [List.filter_cons, ha, hh]
      · intro p hp hpc
        rcases List.mem_cons.mp hp with h | h
        · exact absurd (h ▸ hpc) ha
        · exact hmin p h hpc

/-- A sorted list paired (positionally) with any second list is pairwise
ordered in its first components. -/
theorem pairwise_zip_fst (l1 l2 : List ℚ) (h : List.Sorted (· ≤ ·) l1) :
    List.Pairwise (fun p q : ℚ × ℚ => p.1 ≤ q.1) (l1.zip l2) := by
  have h' := List.pairwise_iff_getElem.mp h
  refine List.pairwise_iff_getElem.mpr ?_
  intro i j hi hj hij
  rw [List.length_zip] at hi hj
  have hi1 : i < l1.length := lt_of_lt_of_le hi (min_le_left _ _)
  have hj1 : j < l1.length := lt_of_lt_of_le hj (min_le_left _ _)
  have hi2 : i < l2.length := lt_of_lt_of_le hi (min_le_right _ _)
  have hj2 : j < l2.length := lt_of_lt_of_le hj (min_le_right _ _)
  simp only [List.getElem_zip]
  exact h' i j hi1 hj1 hij

/-- Characterization of a successful inversion: the returned value is the
first component of the first qualifying (grid value, CDF value) pair. -/
theorem invertCDF_ok_iff (infYY : List (List Bool)) (w yCDF : List ℚ)
    (α v : ℚ) :
    invertCDF infYY w yCDF α = .ok v ↔
      ∃ c, ((yCDF.zip (weightedCDF infYY w)).filter
        (fun p => decide (α ≤ p.2))).head? = some (v, c) := by
  unfold invertCDF
  cases hh : ((yCDF.zip (weightedCDF infYY w)).filter (fun p => decide (α ≤ p.2))).head? with
  | none => simp
  | some p =>
    obtain ⟨v', c'⟩ := p
    constructor
    · intro h
      simp only [Except.ok.injEq] at h
      exact ⟨c', by rw [h]⟩
    · rintro ⟨c, hc⟩
      simp only [Option.some.injEq, Prod.mk.injEq] at hc
      simp [hc.1]

/-- C4: for every weight vector `w` and every level `alpha`, the inversion
strategy (lines 201-206: `CDF = self._infYY.dot(weight)` followed by
`self._yCDF.values[CDF >= alphai][0]`) returns the smallest grid value whose
weighted empirical CDF (the dot product of its indicator row with `w`)
reaches `alpha`, provided the grid is sorted and some grid point qualifies. -/
theorem c4_inversion_returns_least_grid_value (infYY : List (List Bool))
    (w yCDF : List ℚ) (α : ℚ)
    (hsort : List.Sorted (· ≤ ·) yCDF)
    (hex : ∃ p ∈ yCDF.zip (weightedCDF infYY w), α ≤ p.2) :
    ∃ v c, invertCDF infYY w yCDF α = .ok v ∧
      (v, c) ∈ yCDF.zip (weightedCDF infYY w) ∧ α ≤ c ∧
      ∀ p ∈ yCDF.zip (weightedCDF infYY w), α ≤ p.2 → v ≤ p.1 := by
  obtain ⟨v, c, hh, hm, hc, hmin⟩ :=
    firstSat α (yCDF.zip (weightedCDF infYY w)) (pairwise_zip_fst _ _ hsort) hex
  exact ⟨v, c, (invertCDF_ok_iff infYY w yCDF α v).mpr ⟨c, hh⟩, hm, hc, hmin⟩

/-- Witness for C4 on a concrete grid, indicator matrix and weight vector. -/
theorem c4_witness :
    ∃ v c, invertCDF [[false], [true]] [1] [0, 5] (1/2) = .ok v ∧
      (v, c) ∈ ([0, 5] : List ℚ).zip (weightedCDF [[false], [true]] [1]) ∧
      1/2 ≤ c ∧
      ∀ p ∈ ([0, 5] : List ℚ).zip (weightedCDF [[false], [true]] [1]),
        1/2 ≤ p.2 → v ≤ p.1 :=
  c4_inversion_returns_least_grid_value [[false], [true]] [1] [0, 5] (1/2)
    (by norm_num [List.sorted_cons])
    ⟨(5, 1), by norm_num [weightedCDF, boolDot], by norm_num⟩

/-! ## C8: monotonicity of both strategies in alpha -/

theorem mem_of_head? {α : Type} {l : List α} {x : α} (h : l.head? = some x) :
    x ∈ l := by
  cases l with
  | nil => simp at h
  | cons a t =>
    simp only [List.head?_cons, Option.some.injEq] at h
    simp [h]

/-- The constraint `_ieqFunc` differs across levels only by the constant
`alpha` term. -/
theorem ieq_shift (outputs w : List ℚ) (q α1 α2 : ℚ) :
    ieqFunc outputs q w α1 = ieqFunc outputs q w α2 + (α2 - α1) := by
  simp only [ieqFunc]
  ring

theorem cdf_filter_mono (q q' : ℚ) (hq : q ≤ q') (l : List (ℚ × ℚ))
    (h : ∀ p ∈ l, 0 ≤ p.2) :
    ((l.filter (fun p => decide (p.1 ≤ q))).map (fun p => p.2)).sum ≤
      ((l.filter (fun p => decide (p.1 ≤ q'))).map (fun p => p.2)).sum := by
  induction l with
  | nil => simp
  | cons a t ih =>
    have iht := ih (fun z hz => h z (by simp [hz]))
    by_cases h1 : a.1 ≤ q
    · have h2 : a.1 ≤ q' := le_trans h1 hq
      simp only [List.filter_cons, h1, h2, decide_True, if_true, List.map_cons,
        List.sum_cons]
      linarith
    · by_cases h2 : a.1 ≤ q'
      · have ha := h a (by simp)
        simp [List.filter_cons, h1, h2]
        linarith
      · simp [List.filter_cons, h1, h2]
        exact iht

/-- The weighted empirical CDF read off by `_ieqFunc` is nondecreasing in the
evaluation point when the weights are non-negative. -/
theorem ieq_mono (outputs w : List ℚ) (α q q' : ℚ) (hq : q ≤ q')
    (hw : ∀ p ∈ outputs.zip w, 0 ≤ p.2) :
    ieqFunc outputs q w α ≤ ieqFunc outputs q' w α := by
  simp only [ieqFunc]
  have := cdf_filter_mono q q' hq (outputs.zip w) hw
  linarith

theorem sum_check_diff (S : List (ℚ × ℚ)) (q α1 α2 : ℚ) :
    (S.map (fun p => check_function p.1 q α2)).sum -
      (S.map (fun p => check_function p.1 q α1)).sum =
      (α2 - α1) * (S.map (fun p => p.1 - q)).sum := by
  induction S with
  | nil => simp
  | cons a t ih =>
    have hc : check_function a.1 q α2 - check_function a.1 q α1 =
        (α2 - α1) * (a.1 - q) := by
      simp only [check_function]
      ring
    simp only [List.map_cons, List.sum_cons]
    linear_combination ih + hc

/-- Across two levels, `_optFunc` differs by `(α2 − α1)` times the sum of
`(y_i − q)` over the support of the weight vector: the level enters the
objective only through the slope of the pinball loss. -/
theorem optFunc_diff (outputs w : List ℚ) (q α1 α2 : ℚ) :
    optFunc outputs q w α2 - optFunc outputs q w α1 =
      (α2 - α1) *
        (((outputs.zip w).filter (fun p => decide (p.2 ≠ 0))).map
          (fun p => p.1 - q)).sum := by
  simp only [optFunc]
  exact sum_check_diff _ q α1 α2

theorem sum_map_sub_const (S : List (ℚ × ℚ)) (q : ℚ) :
    (S.map (fun p => p.1 - q)).sum =
      (S.map (fun p => p.1)).sum - (S.length : ℚ) * q := by
  induction S with
  | nil => simp
  | cons a t ih =>
    simp only [List.map_cons, List.sum_cons, List.length_cons]
    push_cast
    linear_combination ih

/-- C8: for a fixed weight vector, the quantile is nondecreasing in the
probability level for both strategies.  Optimization strategy (the scipy
optimizer is modelled by its contract, spec §6: it returns a minimizer of
`_optFunc` subject to `_ieqFunc ≥ 0`): any constrained minimizer `q1` at
level `α1` is at most any constrained minimizer `q2` at level `α2 > α1`.
Inversion strategy: whenever `invertCDF` succeeds at both levels on a sorted
grid, the value at `α1` is at most the value at `α2`. -/
theorem c8_quantile_monotone_in_alpha (outputs w yCDF : List ℚ)
    (infYY : List (List Bool)) (α1 α2 q1 q2 : ℚ)
    (hw : ∀ p ∈ outputs.zip w, 0 ≤ p.2)
    (hS : (outputs.zip w).filter (fun p => decide (p.2 ≠ 0)) ≠ [])
    (hα : α1 < α2)
    (hfeas1 : 0 ≤ ieqFunc outputs q1 w α1)
    (hmin1 : ∀ q, 0 ≤ ieqFunc outputs q w α1 →
      optFunc outputs q1 w α1 ≤ optFunc outputs q w α1)
    (hfeas2 : 0 ≤ ieqFunc outputs q2 w α2)
    (hmin2 : ∀ q, 0 ≤ ieqFunc outputs q w α2 →
      optFunc outputs q2 w α2 ≤ optFunc outputs q w α2)
    (hsort : List.Sorted (· ≤ ·) yCDF) :
    q1 ≤ q2 ∧
    ∀ v1 v2, invertCDF infYY w yCDF α1 = .ok v1 →
      invertCDF infYY w yCDF α2 = .ok v2 → v1 ≤ v2 := by
  constructor
  · by_contra hq
    push_neg at hq
    have hfeas1q2 : 0 ≤ ieqFunc outputs q2 w α1 := by
      rw [ieq_shift outputs w q2 α1 α2]
      linarith
    have h1 := hmin1 q2 hfeas1q2
    have hfeas2q1 : 0 ≤ ieqFunc outputs q1 w α2 :=
      le_trans hfeas2 (ieq_mono outputs w α2 q2 q1 (le_of_lt hq) hw)
    have h2 := hmin2 q1 hfeas2q1
    have hd1 := optFunc_diff outputs w q1 α1 α2
    have hd2 := optFunc_diff outputs w q2 α1 α2
    have hsub1 := sum_map_sub_const
      ((outputs.zip w).filter (fun p => decide (p.2 ≠ 0))) q1
    have hsub2 := sum_map_sub_const
      ((outputs.zip w).filter (fun p => decide (p.2 ≠ 0))) q2
    have hN : 1 ≤ ((((outputs.zip w).filter (fun p => decide (p.2 ≠ 0))).length : ℚ)) := by
      have := List.length_pos.mpr hS
      exact_mod_cast this
    have hstrict :
        (((outputs.zip w).filter (fun p => decide (p.2 ≠ 0))).map
          (fun p => p.1 - q1)).sum <
        (((outputs.zip w).filter (fun p => decide (p.2 ≠ 0))).map
          (fun p => p.1 - q2)).sum := by
      rw [hsub1, hsub2]
      nlinarith
    have hp := mul_lt_mul_of_pos_left hstrict (by linarith : (0 : ℚ) < α2 - α1)
    linarith
  · intro v1 v2 hv1 hv2
    obtain ⟨c1, hh1⟩ := (invertCDF_ok_iff infYY w yCDF α1 v1).mp hv1
    obtain ⟨c2, hh2⟩ := (invertCDF_ok_iff infYY w yCDF α2 v2).mp hv2
    have hm2 := List.mem_filter.mp (mem_of_head? hh2)
    have hc2 : α2 ≤ c2 := by simpa using hm2.2
    have hex1 : ∃ p ∈ yCDF.zip (weightedCDF infYY w), α1 ≤ p.2 :=
      ⟨(v2, c2), hm2.1, le_trans (le_of_lt hα) hc2⟩
    obtain ⟨v, c, hh, _, _, hmin⟩ :=
      firstSat α1 (yCDF.zip (weightedCDF infYY w)) (pairwise_zip_fst _ _ hsort) hex1
    rw [hh1] at hh
    have hv : v1 = v := by
      simpa using congrArg (fun o => (o.getD (0, 0)).1) hh
    rw [hv]
    exact hmin (v2, c2) hm2.1 (le_trans (le_of_lt hα) hc2)

/-- Witness for C8: outputs `[5]`, weights `[1]`, levels `3/10 < 7/10`;
`q = 5` is a constrained minimizer at both levels, and on the concrete grid
`[0, 5]` the successful inversions are ordered. -/
theorem c8_witness :
    (5 : ℚ) ≤ 5 ∧
    ∀ v1 v2, invertCDF [[false], [true]] [1] [0, 5] (3/10) = .ok v1 →
      invertCDF [[false], [true]] [1] [0, 5] (7/10) = .ok v2 → v1 ≤ v2 := by
  have hopt0 : ∀ α : ℚ, optFunc [5] 5 [1] α = 0 := by
    intro α
    norm_num [optFunc, check_function, List.filter]
  have hoptq : ∀ q α : ℚ, optFunc [5] q [1] α = check_function 5 q α := by
    intro q α
    norm_num [optFunc, List.filter]
  have hmin : ∀ α : ℚ, 0 ≤ α → α ≤ 1 →
      ∀ q : ℚ, 0 ≤ ieqFunc [5] q [1] α →
        optFunc [5] 5 [1] α ≤ optFunc [5] q [1] α := by
    intro α hα0 hα1 q _
    rw [hopt0 α, hoptq q α]
    unfold check_function
    rcases le_or_lt q 5 with h | h
    · rw [if_neg (by linarith)]
      nlinarith
    · rw [if_pos (by linarith)]
      nlinarith
  exact c8_quantile_monotone_in_alpha [5] [1] [0, 5] [[false], [true]]
    (3/10) (7/10) 5 5
    (by intro p hp; simp only [List.zip_cons_cons, List.zip_nil_right,
          List.mem_singleton] at hp; simp [hp])
    (by norm_num [List.filter])
    (by norm_num)
    (by norm_num [ieqFunc, List.filter])
    (hmin (3/10) (by norm_num) (by norm_num))
    (by norm_num [ieqFunc, List.filter])
    (hmin (7/10) (by norm_num) (by norm_num))
    (by norm_num [List.sorted_cons])

end QRF
